import Mathlib

/-!
Shallow embedding of the repository's two scripts:

* `count_yolohbb.py` — a per-class counter over YOLO-style label files
  (`parse_label_line`, `load_classes`, `process_files`);
* `compute_diameter.py` — a diameter estimator with pixel-to-real scale
  conversion (`max_point_distance`, `process_label_file`).

Numeric tokens of a label line are modelled as `Option ℚ`: `some q` is a
token on which Python's `float` succeeds with value `q`, `none` is a
non-numeric token.  File discovery, image loading and CSV writing are
external collaborators: a label file is modelled as its (stripped) lines
plus the optionally resolved image name and pixel dimensions.
-/

/-- A stripped label-file line: blank, a comment starting with `#`, or the
whitespace-split list of its tokens. -/
inductive RawLine where
  | blank
  | comment
  | data (toks : List (Option ℚ))
deriving DecidableEq

/-- Truncation toward zero: the behaviour of Python `int()` on a float. -/
def truncQ (q : ℚ) : ℤ := if 0 ≤ q then ⌊q⌋ else ⌈q⌉

/-- `[float(x) for x in parts]`: fails at the first non-numeric token. -/
def seqOpts : List (Option ℚ) → Option (List ℚ)
  | [] => some []
  | none :: _ => none
  | some q :: ts => (seqOpts ts).map (fun cs => q :: cs)

/-- `parse_label_line` of `count_yolohbb.py` (and the inline
`int(float(parts[0]))` / list-comprehension parse of
`process_label_file` in `compute_diameter.py`): the first token parses
as a real and truncates to the class id, the remaining tokens parse as
reals; an empty token list or any non-numeric token is a parse failure,
modelled as `none`. -/
def parse_label_line : List (Option ℚ) → Option (ℤ × List ℚ)
  | [] => none
  | none :: _ => none
  | some q :: ts => (seqOpts ts).map (fun cs => (truncQ q, cs))

/-- The class id the counting loop of `process_files` extracts from a
line: blank and comment lines are skipped, parse failures are diagnosed
and skipped, every successfully parsed line counts. -/
def lineClass : RawLine → Option ℤ
  | .blank => none
  | .comment => none
  | .data toks => (parse_label_line toks).map Prod.fst

/-- A label file as seen by the counter: base file name and lines. -/
structure CountFile where
  name : String
  lines : List RawLine

/-- One step of the counting loop of `process_files`: a successfully
parsed line increments the per-file table and the running total.  A
`defaultdict(int)` is modelled as a total function with default 0. -/
def bumpLine (ct : (ℤ → ℕ) × (ℤ → ℕ)) (l : RawLine) : (ℤ → ℕ) × (ℤ → ℕ) :=
  match lineClass l with
  | some cls => (Function.update ct.1 cls (ct.1 cls + 1),
                 Function.update ct.2 cls (ct.2 cls + 1))
  | none => ct

/-- The per-file body of `process_files`: count one file's lines (fresh
per-file table, threaded total), then store the per-file table under the
file's base name — `per_file[f.name] = dict(counts)`. -/
def countStep (acc : (String → Option (ℤ → ℕ)) × (ℤ → ℕ)) (f : CountFile) :
    (String → Option (ℤ → ℕ)) × (ℤ → ℕ) :=
  let ct := f.lines.foldl bumpLine (fun _ => 0, acc.2)
  (Function.update acc.1 f.name (some ct.1), ct.2)

/-- `process_files` of `count_yolohbb.py`: the per-file tables keyed by
base file name (a later file with the same name overwrites the earlier
entry) together with the overall total table. -/
def process_files (files : List CountFile) :
    (String → Option (ℤ → ℕ)) × (ℤ → ℕ) :=
  files.foldl countStep (fun _ => none, fun _ => 0)

/-- Specification-side count: how many lines of the list are counted
towards class `c`. -/
def tally : List RawLine → ℤ → ℕ
  | [], _ => 0
  | l :: ls, c =>
      (match lineClass l with
       | some cls => if cls = c then 1 else 0
       | none => 0) + tally ls c

/-- The loop of `load_classes`: `for i, line in enumerate(...)`, skipping
blank lines, otherwise `names[i] = s`.  Each list element is the already
stripped line content, so a blank line is the empty string. -/
def loadAux : (ℕ → Option String) → ℕ → List String → (ℕ → Option String)
  | names, _, [] => names
  | names, i, s :: rest =>
      loadAux (if s = "" then names else Function.update names i (some s)) (i + 1) rest

/-- `load_classes` of `count_yolohbb.py`: class id = zero-based line
index; blank lines are skipped but still consume their index. -/
def load_classes (lines : List String) : ℕ → Option String :=
  loadAux (fun _ => none) 0 lines

/-- `classes_map.get(cls, "")` as used by `save_results`: a class id
absent from the map resolves to the empty string. -/
def resolveName (names : ℕ → Option String) (c : ℕ) : String :=
  (names c).getD ""

/-- `math.hypot(x2 - x1, y2 - y1)`: Euclidean distance of two points.
Coordinates are rationals (float values), the distance is a real. -/
noncomputable def hdist (p q : ℚ × ℚ) : ℝ :=
  Real.sqrt (((q.1 - p.1 : ℚ) : ℝ) ^ 2 + ((q.2 - p.2 : ℚ) : ℝ) ^ 2)

/-- The index pairs `i < j` of the double loop of `max_point_distance`,
as the list of element pairs. -/
def ltPairs : List (ℚ × ℚ) → List ((ℚ × ℚ) × (ℚ × ℚ))
  | [] => []
  | p :: ps => ps.map (fun q => (p, q)) ++ ltPairs ps

/-- `max_point_distance` of `compute_diameter.py`: starting from 0.0,
take the larger of the running maximum and each pairwise distance. -/
noncomputable def max_point_distance (pts : List (ℚ × ℚ)) : ℝ :=
  (ltPairs pts).foldl (fun maxd pq => max maxd (hdist pq.1 pq.2)) 0

/-- Outcome of the geometry block of `process_label_file` on one parsed
line: a pixel diameter, or one of the two skip-with-diagnostic cases. -/
inductive GeomResult where
  | ok (d : ℝ)
  | missingImage
  | unsupported

/-- The geometry block of `process_label_file` (`compute_diameter.py`
lines 100–130): dispatch on the coordinate count; for 4 or 5 values take
width and height from positions 2 and 3, for 8 values take the maximum
pairwise vertex distance; normalized values are scaled by the image
dimensions when those are known (Python's `img_w and img_h` truthiness
check makes zero dimensions count as unknown). -/
noncomputable def estimate_diameter (nums : List ℚ) (dims : Option (ℕ × ℕ)) :
    GeomResult :=
  if nums.length = 4 ∨ nums.length = 5 then
    let w := nums.getD 2 0
    let h := nums.getD 3 0
    match dims with
    | some (W, H) =>
        if (w ≤ 1 ∧ h ≤ 1) ∧ (W ≠ 0 ∧ H ≠ 0) then
          .ok (((max (w * W) (h * H) : ℚ) : ℝ))
        else if 1 < w ∨ 1 < h then .ok (((max w h : ℚ) : ℝ))
        else .missingImage
    | none =>
        if 1 < w ∨ 1 < h then .ok (((max w h : ℚ) : ℝ))
        else .missingImage
  else if nums.length = 8 then
    let pts := [(nums.getD 0 0, nums.getD 1 0), (nums.getD 2 0, nums.getD 3 0),
                (nums.getD 4 0, nums.getD 5 0), (nums.getD 6 0, nums.getD 7 0)]
    match dims with
    | some (W, H) =>
        if (∀ p ∈ pts, (0 ≤ p.1 ∧ p.1 ≤ 1) ∧ (0 ≤ p.2 ∧ p.2 ≤ 1)) ∧ (W ≠ 0 ∧ H ≠ 0) then
          .ok (max_point_distance (pts.map (fun p => (p.1 * W, p.2 * H))))
        else .ok (max_point_distance pts)
    | none => .ok (max_point_distance pts)
  else .unsupported

/-- A diameter output row (one CSV line of `diameters.csv`). -/
structure DRecord where
  image : String
  label_file : String
  class_id : ℤ
  diameter_pixels : ℝ
  real_diameter : ℝ
  unit : String

/-- The per-line diagnostics `process_label_file` prints to stderr,
tagged with the 1-based line number. -/
inductive Diag where
  | parseFailure (lineNo : ℕ)
  | missingImage (lineNo : ℕ)
  | unsupported (lineNo : ℕ)
deriving DecidableEq

/-- The error that aborts `process_label_file`: Python's
`ZeroDivisionError` from `scale_real / scale_pixels` when
`scale_pixels == 0`. -/
inductive ProcErr where
  | zeroDivision
deriving DecidableEq

/-- What one loop iteration of `process_label_file` produces. -/
inductive LineOut where
  | skip
  | diag (d : Diag)
  | row (r : DRecord)

/-- The per-run constants of `process_label_file`: resolved image name,
label file name, image dimensions, the two scale factors and the unit. -/
structure LineCtx where
  imgName : String
  fileName : String
  dims : Option (ℕ × ℕ)
  sp : ℚ
  sr : ℚ
  unit : String

/-- One iteration of the line loop of `process_label_file`: skip blank
and comment lines, warn and skip on parse failure, run the geometry
block, then convert to a real diameter and build the row.  The division
`scale_real / scale_pixels` raises `ZeroDivisionError` when
`scale_pixels == 0`, which aborts the whole file. -/
noncomputable def process_line (ctx : LineCtx) (i : ℕ) (l : RawLine) :
    Except ProcErr LineOut :=
  match l with
  | .blank => .ok .skip
  | .comment => .ok .skip
  | .data toks =>
    match parse_label_line toks with
    | none => .ok (.diag (.parseFailure (i + 1)))
    | some (cls, nums) =>
      match estimate_diameter nums ctx.dims with
      | .missingImage => .ok (.diag (.missingImage (i + 1)))
      | .unsupported => .ok (.diag (.unsupported (i + 1)))
      | .ok d =>
        if ctx.sp = 0 then .error .zeroDivision
        else .ok (.row ⟨ctx.imgName, ctx.fileName, cls, d,
                        d * ((ctx.sr / ctx.sp : ℚ) : ℝ), ctx.unit⟩)

/-- The line loop of `process_label_file`, from line index `i` on:
collects the rows and the diagnostics in line order; a raised
`ZeroDivisionError` discards the rows accumulated so far and aborts the
rest of the file. -/
noncomputable def processLines (ctx : LineCtx) : ℕ → List RawLine →
    Except ProcErr (List DRecord × List Diag)
  | _, [] => .ok ([], [])
  | i, l :: ls =>
    match process_line ctx i l with
    | .error e => .error e
    | .ok .skip => processLines ctx (i + 1) ls
    | .ok (.diag d) => (processLines ctx (i + 1) ls).map (fun p => (p.1, d :: p.2))
    | .ok (.row r) => (processLines ctx (i + 1) ls).map (fun p => (r :: p.1, p.2))

/-- A label file as seen by `process_label_file`: its base name, the
optionally resolved image (name and pixel dimensions from PIL), and its
stripped lines. -/
structure LabelFile where
  name : String
  image : Option (String × ℕ × ℕ)
  lines : List RawLine

/-- `process_label_file` of `compute_diameter.py`: the rows and the
diagnostics of one label file, or the `ZeroDivisionError` escaping it.
The recorded image name is `img_path.name if img_path else ""`. -/
noncomputable def process_label_file (f : LabelFile) (sp sr : ℚ) (u : String) :
    Except ProcErr (List DRecord × List Diag) :=
  processLines
    ⟨(match f.image with | some t => t.1 | none => ""), f.name,
     f.image.map (fun t => t.2), sp, sr, u⟩ 0 f.lines

/-- The file loop of `main` in `compute_diameter.py`: each file is
processed inside `try/except`, an escaping exception is diagnosed (here:
the name of the failing file) and the loop continues; the collected rows
are written unconditionally afterwards. -/
noncomputable def runAll : List LabelFile → ℚ → ℚ → String →
    List DRecord × List String
  | [], _, _, _ => ([], [])
  | f :: fs, sp, sr, u =>
    let rest := runAll fs sp sr u
    match process_label_file f sp sr u with
    | .ok (rows, _) => (rows ++ rest.1, rest.2)
    | .error _ => (rest.1, f.name :: rest.2)

/-- The rows of a `process_label_file` result; a failed file contributes
none. -/
def okRows : Except ProcErr (List DRecord × List Diag) → List DRecord
  | .ok p => p.1
  | .error _ => []

/-- The diagnostics of a `process_label_file` result. -/
def okDiags : Except ProcErr (List DRecord × List Diag) → List Diag
  | .ok p => p.2
  | .error _ => []

/-- The amended side condition of C7: on a box-shaped line (4 or 5
coordinates) at least one of width and height is nonnegative. -/
def boxNonneg : RawLine → Prop
  | .data toks => ∀ cls nums, parse_label_line toks = some (cls, nums) →
      (nums.length = 4 ∨ nums.length = 5) →
      0 ≤ nums.getD 2 0 ∨ 0 ≤ nums.getD 3 0
  | _ => True

/-- Two files with the same base name, one counted line each. -/
def dupFiles : List CountFile :=
  [⟨"a", [RawLine.data [some 0]]⟩, ⟨"a", [RawLine.data [some 0]]⟩]

/-- A label file with one pixel-unit box line `0 0 0 150 80`, no
image. -/
def boxFile : LabelFile :=
  ⟨"lbl", none, [.data [some 0, some 0, some 0, some 150, some 80]]⟩

/-- The row `process_label_file` produces for `boxFile` at scale 2 px =
5 real units. -/
noncomputable def boxRec : DRecord :=
  ⟨"", "lbl", 0, ((150 : ℚ) : ℝ), ((150 : ℚ) : ℝ) * ((5 / 2 : ℚ) : ℝ), "um"⟩

/-- A label file with a normalized box line whose width and height are
both negative, next to a 200×100 image. -/
def negFile : LabelFile :=
  ⟨"lbl", some ("img", 200, 100),
   [.data [some 0, some 0, some 0, some (-(1/2)), some (-(3/10))]]⟩

/-- A label file whose only line has 6 coordinates (unsupported). -/
def sixFile : LabelFile :=
  ⟨"u", none, [.data [some 1, some 0, some 0, some 0, some 0, some 0, some 0]]⟩

/-! ### Parsing lemmas -/

theorem seqOpts_eq_none_iff (ts : List (Option ℚ)) :
    seqOpts ts = none ↔ none ∈ ts := by
  induction ts with
  | nil => simp [seqOpts]
  | cons t ts ih =>
    cases t with
    | none => simp [seqOpts]
    | some q =>
      simp only [seqOpts, List.mem_cons, Option.map_eq_none']
      rw [ih]
      simp

/-- C6 (amended): the Line Parser fails on an empty token list, a
non-numeric class token, or any non-numeric coordinate token; on success
it returns the class id — the first token truncated toward zero — and
the, possibly empty, coordinate list. -/
theorem parse_label_line_spec (q : ℚ) (ts : List (Option ℚ)) :
    parse_label_line [] = none ∧
    parse_label_line (none :: ts) = none ∧
    (seqOpts ts = none ↔ none ∈ ts) ∧
    (none ∈ ts → parse_label_line (some q :: ts) = none) ∧
    (∀ cs, seqOpts ts = some cs →
      parse_label_line (some q :: ts) = some (truncQ q, cs)) := by
  refine ⟨rfl, rfl, seqOpts_eq_none_iff ts, fun hn => ?_, fun cs hcs => ?_⟩
  · simp [parse_label_line, (seqOpts_eq_none_iff ts).mpr hn]
  · simp [parse_label_line, hcs]

theorem parse_label_line_spec_witness :
    parse_label_line [some (7/2 : ℚ), some 1, none] = none ∧
    parse_label_line [some (7/2 : ℚ), some 1, some 2] = some (3, [1, 2]) := by
  constructor
  · exact (parse_label_line_spec (7/2) [some 1, none]).2.2.2.1 (by simp)
  · rw [(parse_label_line_spec (7/2) [some 1, some 2]).2.2.2.2 [1, 2] (by decide)]
    have h3 : truncQ (7/2 : ℚ) = 3 := by
      rw [truncQ, if_pos (by norm_num), Int.floor_eq_iff]
      norm_num
    rw [h3]

/-- C6 counterexample: a line consisting of a single class token parses
successfully with an empty coordinate list, where the claim demands a
failure ("zero numeric tokens remain") and a non-empty coordinate
list. -/
theorem parse_label_line_class_only :
    parse_label_line [some 3] = some (3, []) := by decide

/-! ### Counting lemmas -/

theorem foldl_bumpLine_spec (lines : List RawLine) :
    ∀ (counts total : ℤ → ℕ) (x : ℤ),
      (lines.foldl bumpLine (counts, total)).1 x = counts x + tally lines x ∧
      (lines.foldl bumpLine (counts, total)).2 x = total x + tally lines x := by
  induction lines with
  | nil => intro counts total x; simp [tally]
  | cons l ls ih =>
    intro counts total x
    rw [List.foldl_cons]
    rcases hc : lineClass l with _ | cls
    · have hb : bumpLine (counts, total) l = (counts, total) := by
        simp [bumpLine, hc]
      have ht : tally (l :: ls) x = tally ls x := by simp [tally, hc]
      rw [hb, ht]
      exact ih counts total x
    · have hb : bumpLine (counts, total) l =
          (Function.update counts cls (counts cls + 1),
           Function.update total cls (total cls + 1)) := by
        simp [bumpLine, hc]
      have ht : tally (l :: ls) x = (if cls = x then 1 else 0) + tally ls x := by
        simp [tally, hc]
      obtain ⟨h1, h2⟩ := ih (Function.update counts cls (counts cls + 1))
        (Function.update total cls (total cls + 1)) x
      rw [hb, ht]
      constructor
      · rw [h1, Function.update_apply]
        by_cases hx : x = cls
        · subst hx; rw [if_pos rfl, if_pos rfl]; omega
        · rw [if_neg hx, if_neg (fun hh => hx hh.symm)]; omega
      · rw [h2, Function.update_apply]
        by_cases hx : x = cls
        · subst hx; rw [if_pos rfl, if_pos rfl]; omega
        · rw [if_neg hx, if_neg (fun hh => hx hh.symm)]; omega

theorem countStep_snd (acc : (String → Option (ℤ → ℕ)) × (ℤ → ℕ))
    (f : CountFile) (c : ℤ) :
    (countStep acc f).2 c = acc.2 c + tally f.lines c :=
  (foldl_bumpLine_spec f.lines (fun _ => 0) acc.2 c).2

theorem countStep_fst (acc : (String → Option (ℤ → ℕ)) × (ℤ → ℕ))
    (f : CountFile) :
    (countStep acc f).1 =
      Function.update acc.1 f.name (some (fun c => tally f.lines c)) := by
  have h : (f.lines.foldl bumpLine (fun _ => 0, acc.2)).1 =
      fun c => tally f.lines c := by
    funext c
    simpa using (foldl_bumpLine_spec f.lines (fun _ => 0) acc.2 c).1
  show Function.update acc.1 f.name
      (some (f.lines.foldl bumpLine (fun _ => 0, acc.2)).1) = _
  rw [h]

theorem foldl_countStep_snd (files : List CountFile) :
    ∀ (acc : (String → Option (ℤ → ℕ)) × (ℤ → ℕ)) (c : ℤ),
      (files.foldl countStep acc).2 c =
        acc.2 c + (files.map (fun f => tally f.lines c)).sum := by
  induction files with
  | nil => intro acc c; simp
  | cons f fs ih =>
    intro acc c
    rw [List.foldl_cons, ih, countStep_snd]
    simp [Nat.add_assoc]

theorem foldl_countStep_fst_not_mem (files : List CountFile) :
    ∀ (acc : (String → Option (ℤ → ℕ)) × (ℤ → ℕ)) (s : String),
      s ∉ files.map CountFile.name →
      (files.foldl countStep acc).1 s = acc.1 s := by
  induction files with
  | nil => intro acc s _; rfl
  | cons f fs ih =>
    intro acc s hs
    simp only [List.map_cons, List.mem_cons, not_or] at hs
    rw [List.foldl_cons, ih _ s hs.2, countStep_fst,
      Function.update_noteq hs.1]

theorem foldl_countStep_fst_mem (files : List CountFile) :
    ∀ (acc : (String → Option (ℤ → ℕ)) × (ℤ → ℕ)) (f : CountFile),
      (files.map CountFile.name).Nodup → f ∈ files →
      (files.foldl countStep acc).1 f.name =
        some (fun c => tally f.lines c) := by
  induction files with
  | nil => intro _ _ _ h; exact absurd h (List.not_mem_nil _)
  | cons g gs ih =>
    intro acc f hnd hf
    simp only [List.map_cons, List.nodup_cons] at hnd
    rcases List.mem_cons.mp hf with hfg | hfs
    · subst hfg
      rw [List.foldl_cons,
        foldl_countStep_fst_not_mem gs _ f.name hnd.1,
        countStep_fst, Function.update_same]
    · exact ih _ f hnd.2 hfs

/-- C8: the Class Counter is a pure function of its input file contents;
summing the totals of two runs over the same file set gives exactly
double the single-run per-class counts. -/
theorem process_files_double (files : List CountFile) (c : ℤ) :
    (process_files files).2 c + (process_files files).2 c =
      2 * (process_files files).2 c := by
  omega

/-- C9: with pairwise-distinct base file names the total of each class
is the sum of the per-file counts and each file's table entry is its own
tally; with two files sharing a base name the later per-file entry
overwrites the earlier one (entry count 1) while the total keeps both
(total 2). -/
theorem process_files_total_eq_sum (files : List CountFile)
    (hnd : (files.map CountFile.name).Nodup) :
    (∀ c, (process_files files).2 c =
        (files.map (fun f => tally f.lines c)).sum) ∧
    (∀ f ∈ files, (process_files files).1 f.name =
        some (fun c => tally f.lines c)) ∧
    ((process_files dupFiles).2 0 = 2 ∧
      ((process_files dupFiles).1 "a").map (fun g => g 0) = some 1) := by
  refine ⟨fun c => ?_, fun f hf => foldl_countStep_fst_mem files _ f hnd hf,
    ?_, ?_⟩
  · rw [process_files, foldl_countStep_snd]
    simp
  · decide
  · decide

theorem process_files_total_eq_sum_witness :
    (process_files [⟨"a", [RawLine.data [some 0]]⟩]).2 0 =
      ([(⟨"a", [RawLine.data [some 0]]⟩ : CountFile)].map
        (fun f => tally f.lines 0)).sum :=
  (process_files_total_eq_sum [⟨"a", [RawLine.data [some 0]]⟩]
    (by decide)).1 0

/-! ### Class-name loading -/

theorem loadAux_spec (rest : List String) :
    ∀ (names : ℕ → Option String) (i j : ℕ),
      loadAux names i rest j =
        if i ≤ j ∧ j < i + rest.length ∧ rest.getD (j - i) "" ≠ "" then
          some (rest.getD (j - i) "")
        else names j := by
  induction rest with
  | nil =>
    intro names i j
    rw [loadAux, if_neg]
    rintro ⟨h1, h2, -⟩
    simp at h2
    omega
  | cons s rest ih =>
    intro names i j
    rw [loadAux]
    simp only [List.length_cons]
    by_cases hs : s = ""
    · rw [if_pos hs, ih]
      rcases Nat.lt_trichotomy j i with hj | hj | hj
      · rw [if_neg (fun hh => absurd hh.1 (by omega)),
          if_neg (fun hh => absurd hh.1 (by omega))]
      · subst hj
        rw [if_neg (fun hh => absurd hh.1 (by omega)), if_neg]
        rintro ⟨-, -, hne⟩
        rw [Nat.sub_self, List.getD_cons_zero] at hne
        exact hne hs
      · rw [show j - i = (j - (i + 1)) + 1 from by omega,
          List.getD_cons_succ]
        by_cases hc : rest.getD (j - (i + 1)) "" ≠ ""
        · by_cases hlt : j < i + 1 + rest.length
          · rw [if_pos ⟨by omega, hlt, hc⟩, if_pos ⟨by omega, by omega, hc⟩]
          · rw [if_neg (fun hh => absurd hh.2.1 (by omega)),
              if_neg (fun hh => absurd hh.2.1 (by omega))]
        · rw [if_neg (fun hh => hc hh.2.2), if_neg (fun hh => hc hh.2.2)]
    · rw [if_neg hs, ih]
      rcases Nat.lt_trichotomy j i with hj | hj | hj
      · rw [if_neg (fun hh => absurd hh.1 (by omega)),
          if_neg (fun hh => absurd hh.1 (by omega)),
          Function.update_noteq (by omega)]
      · subst hj
        rw [if_neg (fun hh => absurd hh.1 (by omega)),
          Function.update_same,
          if_pos ⟨Nat.le_refl j, by omega,
            by rw [Nat.sub_self, List.getD_cons_zero]; exact hs⟩,
          Nat.sub_self, List.getD_cons_zero]
      · rw [show j - i = (j - (i + 1)) + 1 from by omega,
          List.getD_cons_succ]
        by_cases hc : rest.getD (j - (i + 1)) "" ≠ ""
        · by_cases hlt : j < i + 1 + rest.length
          · rw [if_pos ⟨by omega, hlt, hc⟩, if_pos ⟨by omega, by omega, hc⟩]
          · rw [if_neg (fun hh => absurd hh.2.1 (by omega)),
              if_neg (fun hh => absurd hh.2.1 (by omega)),
              Function.update_noteq (by omega)]
        · rw [if_neg (fun hh => hc hh.2.2), if_neg (fun hh => hc hh.2.2),
            Function.update_noteq (by omega)]

/-- C10: class-name loading maps each non-blank stripped line to its
zero-based line index; a blank line consumes its index but leaves the id
absent from the mapping, and an absent id resolves to the empty string
in reports rather than an error. -/
theorem load_classes_spec (lines : List String) (j : ℕ) :
    load_classes lines j =
      (if j < lines.length ∧ lines.getD j "" ≠ "" then
        some (lines.getD j "") else none) ∧
    (lines.getD j "" = "" → load_classes lines j = none ∧
      resolveName (load_classes lines) j = "") ∧
    (j < lines.length → lines.getD j "" ≠ "" →
      load_classes lines j = some (lines.getD j "")) := by
  have h := loadAux_spec lines (fun _ => none) 0 j
  simp only [Nat.zero_add, Nat.sub_zero] at h
  have h1 : load_classes lines j =
      if j < lines.length ∧ lines.getD j "" ≠ "" then
        some (lines.getD j "") else none := by
    rw [load_classes, h]
    by_cases hc : j < lines.length ∧ lines.getD j "" ≠ ""
    · rw [if_pos ⟨Nat.zero_le j, hc.1, hc.2⟩, if_pos hc]
    · rw [if_neg (fun hh => hc ⟨hh.2.1, hh.2.2⟩), if_neg hc]
  refine ⟨h1, fun hb => ?_, fun hjl hne => ?_⟩
  · have hn : load_classes lines j = none := by
      rw [h1, if_neg (fun hh => hh.2 hb)]
    exact ⟨hn, by rw [resolveName, hn]; rfl⟩
  · rw [h1, if_pos ⟨hjl, hne⟩]

theorem load_classes_spec_witness :
    load_classes ["ant", "", "bee"] 1 = none ∧
    resolveName (load_classes ["ant", "", "bee"]) 1 = "" :=
  (load_classes_spec ["ant", "", "bee"] 1).2.1 rfl

/-! ### Geometry lemmas -/

theorem estimate_diameter_box_some (nums : List ℚ) (W H : ℕ)
    (hlen : nums.length = 4 ∨ nums.length = 5) :
    estimate_diameter nums (some (W, H)) =
      if (nums.getD 2 0 ≤ 1 ∧ nums.getD 3 0 ≤ 1) ∧ (W ≠ 0 ∧ H ≠ 0) then
        .ok ((max (nums.getD 2 0 * W) (nums.getD 3 0 * H) : ℚ) : ℝ)
      else if 1 < nums.getD 2 0 ∨ 1 < nums.getD 3 0 then
        .ok ((max (nums.getD 2 0) (nums.getD 3 0) : ℚ) : ℝ)
      else .missingImage := by
  unfold estimate_diameter
  rw [if_pos hlen]

theorem estimate_diameter_box_none (nums : List ℚ)
    (hlen : nums.length = 4 ∨ nums.length = 5) :
    estimate_diameter nums none =
      if 1 < nums.getD 2 0 ∨ 1 < nums.getD 3 0 then
        .ok ((max (nums.getD 2 0) (nums.getD 3 0) : ℚ) : ℝ)
      else .missingImage := by
  unfold estimate_diameter
  rw [if_pos hlen]

theorem estimate_diameter_eight_some (a b c d e f g k : ℚ) (W H : ℕ) :
    estimate_diameter [a, b, c, d, e, f, g, k] (some (W, H)) =
      if (∀ p ∈ ([(a, b), (c, d), (e, f), (g, k)] : List (ℚ × ℚ)),
            (0 ≤ p.1 ∧ p.1 ≤ 1) ∧ (0 ≤ p.2 ∧ p.2 ≤ 1)) ∧ (W ≠ 0 ∧ H ≠ 0) then
        .ok (max_point_distance
          [(a * W, b * H), (c * W, d * H), (e * W, f * H), (g * W, k * H)])
      else .ok (max_point_distance [(a, b), (c, d), (e, f), (g, k)]) := by
  unfold estimate_diameter
  rw [if_neg (by simp), if_pos (by simp)]
  simp [List.getD]

theorem estimate_diameter_eight_none (a b c d e f g k : ℚ) :
    estimate_diameter [a, b, c, d, e, f, g, k] none =
      .ok (max_point_distance [(a, b), (c, d), (e, f), (g, k)]) := by
  unfold estimate_diameter
  rw [if_neg (by simp), if_pos (by simp)]
  simp [List.getD]

theorem estimate_diameter_other (nums : List ℚ) (dims : Option (ℕ × ℕ))
    (h4 : ¬(nums.length = 4 ∨ nums.length = 5)) (h8 : nums.length ≠ 8) :
    estimate_diameter nums dims = .unsupported := by
  unfold estimate_diameter
  rw [if_neg h4, if_neg h8]

theorem foldl_max_le_init (l : List ((ℚ × ℚ) × (ℚ × ℚ))) :
    ∀ a : ℝ, a ≤ l.foldl (fun maxd pq => max maxd (hdist pq.1 pq.2)) a := by
  induction l with
  | nil => intro a; exact le_refl a
  | cons p ps ih =>
    intro a
    rw [List.foldl_cons]
    exact le_trans (le_max_left _ _) (ih _)

theorem max_point_distance_nonneg (pts : List (ℚ × ℚ)) :
    0 ≤ max_point_distance pts :=
  foldl_max_le_init _ 0

theorem max_point_distance_four (p0 p1 p2 p3 : ℚ × ℚ) :
    max_point_distance [p0, p1, p2, p3] =
      max (max (max (max (max (hdist p0 p1) (hdist p0 p2)) (hdist p0 p3))
        (hdist p1 p2)) (hdist p1 p3)) (hdist p2 p3) := by
  have h0 : (0 : ℝ) ≤ hdist p0 p1 := Real.sqrt_nonneg _
  simp only [max_point_distance, ltPairs, List.map_cons, List.map_nil,
    List.cons_append, List.nil_append, List.append_nil, List.foldl_cons,
    List.foldl_nil]
  rw [max_eq_right h0]

theorem cast_max_nonneg (a b : ℚ) (h : 0 ≤ a ∨ 0 ≤ b) :
    (0 : ℝ) ≤ ((max a b : ℚ) : ℝ) := by
  rcases h with h | h
  · exact_mod_cast le_trans h (le_max_left a b)
  · exact_mod_cast le_trans h (le_max_right a b)

/-- C1: on a line with 4 or 5 coordinates the estimator reads width and
height from positions 2 and 3; with both ≤ 1 and known image dimensions
the diameter is the maximum of the scaled values, with either value
above 1 the values are used unscaled, and with both ≤ 1 and no image the
line is skipped with a missing-image diagnostic.  In particular width
0.5, height 0.3 with a 200×100 image give 100, and width 150, height 80
give 150 without an image. -/
theorem estimate_diameter_box_spec (nums : List ℚ) (dims : Option (ℕ × ℕ))
    (W H : ℕ) (hlen : nums.length = 4 ∨ nums.length = 5) :
    (W ≠ 0 → H ≠ 0 → nums.getD 2 0 ≤ 1 → nums.getD 3 0 ≤ 1 →
      estimate_diameter nums (some (W, H)) =
        .ok ((max (nums.getD 2 0 * W) (nums.getD 3 0 * H) : ℚ) : ℝ)) ∧
    (1 < nums.getD 2 0 ∨ 1 < nums.getD 3 0 →
      estimate_diameter nums dims =
        .ok ((max (nums.getD 2 0) (nums.getD 3 0) : ℚ) : ℝ)) ∧
    (nums.getD 2 0 ≤ 1 → nums.getD 3 0 ≤ 1 →
      estimate_diameter nums none = .missingImage) ∧
    (∀ x y : ℚ, estimate_diameter [x, y, 1/2, 3/10] (some (200, 100)) =
      .ok ((100 : ℝ))) ∧
    (∀ x y : ℚ, estimate_diameter [x, y, 150, 80] none = .ok ((150 : ℝ))) := by
  refine ⟨fun hW hH hw hh => ?_, fun hgt => ?_, fun hw hh => ?_,
    fun x y => ?_, fun x y => ?_⟩
  · rw [estimate_diameter_box_some nums W H hlen,
      if_pos ⟨⟨hw, hh⟩, hW, hH⟩]
  · rcases dims with _ | ⟨W', H'⟩
    · rw [estimate_diameter_box_none nums hlen, if_pos hgt]
    · rw [estimate_diameter_box_some nums W' H' hlen,
        if_neg (fun hc => hgt.elim
          (fun hg => absurd hg (not_lt.mpr hc.1.1))
          (fun hg => absurd hg (not_lt.mpr hc.1.2))),
        if_pos hgt]
  · rw [estimate_diameter_box_none nums hlen,
      if_neg (fun hc => hc.elim
        (fun hg => absurd hg (not_lt.mpr hw))
        (fun hg => absurd hg (not_lt.mpr hh)))]
  · rw [estimate_diameter_box_some [x, y, 1/2, 3/10] 200 100 (Or.inl rfl),
      if_pos ⟨⟨by norm_num [List.getD_cons_succ, List.getD_cons_zero],
        by norm_num [List.getD_cons_succ, List.getD_cons_zero]⟩,
        by norm_num, by norm_num⟩]
    simp only [List.getD_cons_succ, List.getD_cons_zero, GeomResult.ok.injEq]
    norm_num [max_def]
  · rw [estimate_diameter_box_none [x, y, 150, 80] (Or.inl rfl),
      if_pos (Or.inl (by norm_num [List.getD_cons_succ, List.getD_cons_zero]))]
    simp only [List.getD_cons_succ, List.getD_cons_zero, GeomResult.ok.injEq]
    norm_num [max_def]

theorem estimate_diameter_box_spec_witness :
    estimate_diameter [(0 : ℚ), 0, 1/2, 3/10] (some (200, 100)) =
      .ok ((100 : ℝ)) ∧
    estimate_diameter [(0 : ℚ), 0, 150, 80] none = .ok ((150 : ℝ)) := by
  have h := estimate_diameter_box_spec [(0 : ℚ), 0, 1/2, 3/10] none 200 100
    (Or.inl rfl)
  exact ⟨h.2.2.2.1 0 0, h.2.2.2.2 0 0⟩

theorem hdist_eval (p q : ℚ × ℚ) (z : ℝ) (hz : 0 ≤ z)
    (h : ((q.1 - p.1 : ℚ) : ℝ) ^ 2 + ((q.2 - p.2 : ℚ) : ℝ) ^ 2 = z ^ 2) :
    hdist p q = z := by
  rw [hdist, h, Real.sqrt_sq hz]

/-- C2: on a line with exactly 8 coordinates, read as 4 vertex pairs,
the estimator scales the x values by the image width and the y values by
the image height exactly when all 8 coordinates lie in [0,1] and image
dimensions are known — otherwise the coordinates are used unchanged —
and returns the maximum Euclidean distance over the 6 unordered vertex
pairs; the normalized unit-square corners with a 100×100 image give
100·√2. -/
theorem estimate_diameter_quad_spec (a b c d e f g k : ℚ) (W H : ℕ) :
    ((∀ p ∈ ([(a, b), (c, d), (e, f), (g, k)] : List (ℚ × ℚ)),
        (0 ≤ p.1 ∧ p.1 ≤ 1) ∧ (0 ≤ p.2 ∧ p.2 ≤ 1)) → W ≠ 0 → H ≠ 0 →
      estimate_diameter [a, b, c, d, e, f, g, k] (some (W, H)) =
        .ok (max (max (max (max (max
          (hdist (a * W, b * H) (c * W, d * H))
          (hdist (a * W, b * H) (e * W, f * H)))
          (hdist (a * W, b * H) (g * W, k * H)))
          (hdist (c * W, d * H) (e * W, f * H)))
          (hdist (c * W, d * H) (g * W, k * H)))
          (hdist (e * W, f * H) (g * W, k * H)))) ∧
    (¬((∀ p ∈ ([(a, b), (c, d), (e, f), (g, k)] : List (ℚ × ℚ)),
        (0 ≤ p.1 ∧ p.1 ≤ 1) ∧ (0 ≤ p.2 ∧ p.2 ≤ 1)) ∧ (W ≠ 0 ∧ H ≠ 0)) →
      estimate_diameter [a, b, c, d, e, f, g, k] (some (W, H)) =
        .ok (max (max (max (max (max
          (hdist (a, b) (c, d)) (hdist (a, b) (e, f))) (hdist (a, b) (g, k)))
          (hdist (c, d) (e, f))) (hdist (c, d) (g, k)))
          (hdist (e, f) (g, k)))) ∧
    (estimate_diameter [a, b, c, d, e, f, g, k] none =
      .ok (max (max (max (max (max
        (hdist (a, b) (c, d)) (hdist (a, b) (e, f))) (hdist (a, b) (g, k)))
        (hdist (c, d) (e, f))) (hdist (c, d) (g, k)))
        (hdist (e, f) (g, k)))) ∧
    (estimate_diameter [0, 0, 1, 0, 1, 1, 0, 1] (some (100, 100)) =
      .ok (100 * Real.sqrt 2)) := by
  refine ⟨fun hin hW hH => ?_, fun hnot => ?_, ?_, ?_⟩
  · rw [estimate_diameter_eight_some a b c d e f g k W H,
      if_pos ⟨hin, hW, hH⟩, max_point_distance_four]
  · rw [estimate_diameter_eight_some a b c d e f g k W H, if_neg hnot,
      max_point_distance_four]
  · rw [estimate_diameter_eight_none a b c d e f g k,
      max_point_distance_four]
  · rw [estimate_diameter_eight_some 0 0 1 0 1 1 0 1 100 100,
      if_pos ⟨by decide, by decide, by decide⟩, max_point_distance_four]
    have hs : (100 : ℝ) ≤ 100 * Real.sqrt 2 := by
      nlinarith [Real.sq_sqrt (show (0:ℝ) ≤ 2 by norm_num),
        Real.sqrt_nonneg 2]
    have h2 : (0:ℝ) ≤ 2 := by norm_num
    have ha : hdist ((0:ℚ) * ((100:ℕ):ℚ), (0:ℚ) * ((100:ℕ):ℚ))
        ((1:ℚ) * ((100:ℕ):ℚ), (0:ℚ) * ((100:ℕ):ℚ)) = 100 :=
      hdist_eval _ _ _ (by norm_num) (by push_cast; norm_num)
    have hb : hdist ((0:ℚ) * ((100:ℕ):ℚ), (0:ℚ) * ((100:ℕ):ℚ))
        ((1:ℚ) * ((100:ℕ):ℚ), (1:ℚ) * ((100:ℕ):ℚ)) = 100 * Real.sqrt 2 :=
      hdist_eval _ _ _ (by positivity)
        (by push_cast; rw [mul_pow, Real.sq_sqrt h2]; norm_num)
    have hc : hdist ((0:ℚ) * ((100:ℕ):ℚ), (0:ℚ) * ((100:ℕ):ℚ))
        ((0:ℚ) * ((100:ℕ):ℚ), (1:ℚ) * ((100:ℕ):ℚ)) = 100 :=
      hdist_eval _ _ _ (by norm_num) (by push_cast; norm_num)
    have hd : hdist ((1:ℚ) * ((100:ℕ):ℚ), (0:ℚ) * ((100:ℕ):ℚ))
        ((1:ℚ) * ((100:ℕ):ℚ), (1:ℚ) * ((100:ℕ):ℚ)) = 100 :=
      hdist_eval _ _ _ (by norm_num) (by push_cast; norm_num)
    have he : hdist ((1:ℚ) * ((100:ℕ):ℚ), (0:ℚ) * ((100:ℕ):ℚ))
        ((0:ℚ) * ((100:ℕ):ℚ), (1:ℚ) * ((100:ℕ):ℚ)) = 100 * Real.sqrt 2 :=
      hdist_eval _ _ _ (by positivity)
        (by push_cast; rw [mul_pow, Real.sq_sqrt h2]; norm_num)
    have hf : hdist ((1:ℚ) * ((100:ℕ):ℚ), (1:ℚ) * ((100:ℕ):ℚ))
        ((0:ℚ) * ((100:ℕ):ℚ), (1:ℚ) * ((100:ℕ):ℚ)) = 100 :=
      hdist_eval _ _ _ (by norm_num) (by push_cast; norm_num)
    rw [ha, hb, hc, hd, he, hf, max_eq_right hs, max_eq_left hs,
      max_eq_left hs, max_self, max_eq_left hs]

theorem estimate_diameter_quad_spec_witness :
    estimate_diameter [(0:ℚ), 0, 1, 0, 1, 1, 0, 1] (some (100, 100)) =
      .ok (100 * Real.sqrt 2) :=
  (estimate_diameter_quad_spec 0 0 1 0 1 1 0 1 100 100).2.2.2

/-! ### Per-line processing lemmas -/

theorem process_line_row_inv (ctx : LineCtx) (i : ℕ) (l : RawLine)
    (r : DRecord) (h : process_line ctx i l = .ok (.row r)) :
    ∃ toks cls nums, l = .data toks ∧
      parse_label_line toks = some (cls, nums) ∧
      estimate_diameter nums ctx.dims = .ok r.diameter_pixels ∧
      r.real_diameter = r.diameter_pixels * ((ctx.sr / ctx.sp : ℚ) : ℝ) ∧
      ctx.sp ≠ 0 := by
  cases l with
  | blank => simp [process_line] at h
  | comment => simp [process_line] at h
  | data toks =>
    rcases hp : parse_label_line toks with _ | ⟨cls, nums⟩
    · simp [process_line, hp] at h
    · rcases he : estimate_diameter nums ctx.dims with d | _ | _
      · simp only [process_line, hp, he] at h
        by_cases hsp : ctx.sp = 0
        · rw [if_pos hsp] at h
          simp at h
        · rw [if_neg hsp] at h
          simp only [Except.ok.injEq] at h
          injection h with h1
          subst h1
          exact ⟨toks, cls, nums, rfl, hp, he, rfl, hsp⟩
      · simp [process_line, hp, he] at h
      · simp [process_line, hp, he] at h

theorem processLines_rec_spec (ctx : LineCtx) (lines : List RawLine) :
    ∀ (i : ℕ) (recs : List DRecord) (ds : List Diag),
      processLines ctx i lines = .ok (recs, ds) →
      ∀ r ∈ recs, ∃ l ∈ lines, ∃ j, process_line ctx j l = .ok (.row r) := by
  induction lines with
  | nil =>
    intro i recs ds h r hr
    simp only [processLines, Except.ok.injEq, Prod.mk.injEq] at h
    obtain ⟨h1, -⟩ := h
    subst h1
    simp at hr
  | cons l ls ih =>
    intro i recs ds h r hr
    rw [processLines] at h
    rcases hpl : process_line ctx i l with e | o
    · rw [hpl] at h
      simp at h
    · rw [hpl] at h
      cases o with
      | skip =>
        obtain ⟨l0, hl0, j, hj⟩ := ih (i + 1) recs ds h r hr
        exact ⟨l0, List.mem_cons_of_mem _ hl0, j, hj⟩
      | diag dg =>
        rcases hrest : processLines ctx (i + 1) ls with e2 | p
        · rw [hrest] at h
          simp [Except.map] at h
        · rw [hrest] at h
          simp only [Except.map, Except.ok.injEq, Prod.mk.injEq] at h
          obtain ⟨h1, -⟩ := h
          subst h1
          obtain ⟨l0, hl0, j, hj⟩ := ih (i + 1) p.1 p.2 (by rw [hrest]) r hr
          exact ⟨l0, List.mem_cons_of_mem _ hl0, j, hj⟩
      | row r0 =>
        rcases hrest : processLines ctx (i + 1) ls with e2 | p
        · rw [hrest] at h
          simp [Except.map] at h
        · rw [hrest] at h
          simp only [Except.map, Except.ok.injEq, Prod.mk.injEq] at h
          obtain ⟨h1, -⟩ := h
          subst h1
          rcases List.mem_cons.mp hr with hr0 | hrs
          · subst hr0
            exact ⟨l, List.mem_cons_self _ _, i, hpl⟩
          · obtain ⟨l0, hl0, j, hj⟩ := ih (i + 1) p.1 p.2 (by rw [hrest]) r hrs
            exact ⟨l0, List.mem_cons_of_mem _ hl0, j, hj⟩

theorem process_label_file_rec_spec (f : LabelFile) (sp sr : ℚ) (u : String)
    (recs : List DRecord) (ds : List Diag)
    (h : process_label_file f sp sr u = .ok (recs, ds)) :
    ∀ r ∈ recs,
      r.real_diameter = r.diameter_pixels * ((sr / sp : ℚ) : ℝ) ∧ sp ≠ 0 ∧
      ∃ toks cls nums, RawLine.data toks ∈ f.lines ∧
        parse_label_line toks = some (cls, nums) ∧
        estimate_diameter nums (f.image.map (fun t => t.2)) =
          .ok r.diameter_pixels := by
  intro r hr
  rw [process_label_file] at h
  obtain ⟨l, hl, j, hj⟩ := processLines_rec_spec _ f.lines 0 recs ds h r hr
  obtain ⟨toks, cls, nums, rfl, hp, he, hreal, hsp⟩ :=
    process_line_row_inv _ j l r hj
  exact ⟨hreal, hsp, toks, cls, nums, hl, hp, he⟩

theorem estimate_diameter_eight_cases (nums : List ℚ) (W H : ℕ)
    (h4 : ¬(nums.length = 4 ∨ nums.length = 5)) (h8 : nums.length = 8) :
    estimate_diameter nums (some (W, H)) =
      if (∀ p ∈ [(nums.getD 0 0, nums.getD 1 0), (nums.getD 2 0, nums.getD 3 0),
            (nums.getD 4 0, nums.getD 5 0), (nums.getD 6 0, nums.getD 7 0)],
            (0 ≤ p.1 ∧ p.1 ≤ 1) ∧ (0 ≤ p.2 ∧ p.2 ≤ 1)) ∧ (W ≠ 0 ∧ H ≠ 0) then
        .ok (max_point_distance ([(nums.getD 0 0, nums.getD 1 0),
          (nums.getD 2 0, nums.getD 3 0), (nums.getD 4 0, nums.getD 5 0),
          (nums.getD 6 0, nums.getD 7 0)].map (fun p => (p.1 * W, p.2 * H))))
      else .ok (max_point_distance [(nums.getD 0 0, nums.getD 1 0),
        (nums.getD 2 0, nums.getD 3 0), (nums.getD 4 0, nums.getD 5 0),
        (nums.getD 6 0, nums.getD 7 0)]) := by
  unfold estimate_diameter
  rw [if_neg h4, if_pos h8]

theorem estimate_diameter_eight_none_cases (nums : List ℚ)
    (h4 : ¬(nums.length = 4 ∨ nums.length = 5)) (h8 : nums.length = 8) :
    estimate_diameter nums none =
      .ok (max_point_distance [(nums.getD 0 0, nums.getD 1 0),
        (nums.getD 2 0, nums.getD 3 0), (nums.getD 4 0, nums.getD 5 0),
        (nums.getD 6 0, nums.getD 7 0)]) := by
  unfold estimate_diameter
  rw [if_neg h4, if_pos h8]

theorem estimate_ok_nonneg (nums : List ℚ) (dims : Option (ℕ × ℕ)) (d : ℝ)
    (hbox : (nums.length = 4 ∨ nums.length = 5) →
      0 ≤ nums.getD 2 0 ∨ 0 ≤ nums.getD 3 0)
    (hok : estimate_diameter nums dims = .ok d) : 0 ≤ d := by
  by_cases hlen : nums.length = 4 ∨ nums.length = 5
  · have hup : (1 < nums.getD 2 0 ∨ 1 < nums.getD 3 0) →
        (0 : ℚ) ≤ nums.getD 2 0 ∨ (0 : ℚ) ≤ nums.getD 3 0 := fun hgt =>
      hgt.imp (fun hg => by linarith) (fun hg => by linarith)
    rcases dims with _ | ⟨W, H⟩
    · rw [estimate_diameter_box_none nums hlen] at hok
      by_cases hgt : 1 < nums.getD 2 0 ∨ 1 < nums.getD 3 0
      · rw [if_pos hgt] at hok
        injection hok with h1
        subst h1
        exact cast_max_nonneg _ _ (hup hgt)
      · rw [if_neg hgt] at hok
        simp at hok
    · rw [estimate_diameter_box_some nums W H hlen] at hok
      by_cases hc : (nums.getD 2 0 ≤ 1 ∧ nums.getD 3 0 ≤ 1) ∧ (W ≠ 0 ∧ H ≠ 0)
      · rw [if_pos hc] at hok
        injection hok with h1
        subst h1
        refine cast_max_nonneg _ _ ?_
        rcases hbox hlen with hb | hb
        · exact Or.inl (mul_nonneg hb (by positivity))
        · exact Or.inr (mul_nonneg hb (by positivity))
      · rw [if_neg hc] at hok
        by_cases hgt : 1 < nums.getD 2 0 ∨ 1 < nums.getD 3 0
        · rw [if_pos hgt] at hok
          injection hok with h1
          subst h1
          exact cast_max_nonneg _ _ (hup hgt)
        · rw [if_neg hgt] at hok
          simp at hok
  · by_cases h8 : nums.length = 8
    · rcases dims with _ | ⟨W, H⟩
      · rw [estimate_diameter_eight_none_cases nums hlen h8] at hok
        injection hok with h1
        subst h1
        exact max_point_distance_nonneg _
      · rw [estimate_diameter_eight_cases nums W H hlen h8] at hok
        split at hok <;>
          (injection hok with h1; subst h1;
           exact max_point_distance_nonneg _)
    · rw [estimate_diameter_other nums dims hlen h8] at hok
      simp at hok

/-- C4: every row produced with scale_pixels ≠ 0 satisfies
real_diameter = diameter_pixels · (scale_real / scale_pixels), and for
diameter_pixels ≠ 0 the ratio real_diameter / diameter_pixels equals
scale_real / scale_pixels: the conversion is linear and invertible. -/
theorem real_diameter_linear (f : LabelFile) (sp sr : ℚ) (u : String)
    (hsp : sp ≠ 0) (recs : List DRecord) (ds : List Diag)
    (h : process_label_file f sp sr u = .ok (recs, ds)) :
    ∀ r ∈ recs,
      r.real_diameter = r.diameter_pixels * ((sr : ℝ) / (sp : ℝ)) ∧
      (r.diameter_pixels ≠ 0 →
        r.real_diameter / r.diameter_pixels = (sr : ℝ) / (sp : ℝ)) := by
  intro r hr
  obtain ⟨hreal, -, -⟩ := process_label_file_rec_spec f sp sr u recs ds h r hr
  have h1 : r.real_diameter = r.diameter_pixels * ((sr : ℝ) / (sp : ℝ)) := by
    rw [hreal]
    push_cast
    ring
  refine ⟨h1, fun hne => ?_⟩
  rw [h1, mul_comm, mul_div_assoc, div_self hne, mul_one]

theorem boxToks_parse :
    parse_label_line [some 0, some 0, some 0, some 150, some 80] =
      some (0, [0, 0, 150, 80]) := by
  simp [parse_label_line, seqOpts, truncQ]

theorem boxFile_eval :
    process_label_file boxFile 2 5 "um" = .ok ([boxRec], []) := by
  have he : estimate_diameter [0, 0, 150, 80] none = .ok ((150 : ℚ) : ℝ) := by
    rw [estimate_diameter_box_none [0, 0, 150, 80] (Or.inl rfl),
      if_pos (Or.inl (by norm_num))]
    norm_num [max_def]
  rw [process_label_file]
  simp only [boxFile, Option.map_none']
  simp only [processLines, process_line, boxToks_parse, he, Except.map]
  norm_num [boxRec]

theorem real_diameter_linear_witness :
    boxRec.real_diameter = boxRec.diameter_pixels * (((5 : ℚ) : ℝ) / ((2 : ℚ) : ℝ)) ∧
    (boxRec.diameter_pixels ≠ 0 →
      boxRec.real_diameter / boxRec.diameter_pixels = ((5 : ℚ) : ℝ) / ((2 : ℚ) : ℝ)) :=
  real_diameter_linear boxFile 2 5 "um" (by norm_num) [boxRec] []
    boxFile_eval boxRec (by simp)

/-- C7 (amended): every Diameter Record created has
diameter_pixels ≥ 0 provided that, on each box-shaped line (4 or 5
coordinates), at least one of width and height is nonnegative; the
8-coordinate and pixel-unit branches need no extra condition. -/
theorem diameter_records_nonneg (f : LabelFile) (sp sr : ℚ) (u : String)
    (recs : List DRecord) (ds : List Diag)
    (hb : ∀ l ∈ f.lines, boxNonneg l)
    (hok : process_label_file f sp sr u = .ok (recs, ds)) :
    ∀ r ∈ recs, 0 ≤ r.diameter_pixels := by
  intro r hr
  rw [process_label_file] at hok
  obtain ⟨l, hl, j, hj⟩ := processLines_rec_spec _ f.lines 0 recs ds hok r hr
  obtain ⟨toks, cls, nums, rfl, hp, he, -, -⟩ := process_line_row_inv _ j l r hj
  exact estimate_ok_nonneg nums _ r.diameter_pixels
    (fun hlen => hb _ hl cls nums hp hlen) he

theorem diameter_records_nonneg_witness : 0 ≤ boxRec.diameter_pixels := by
  refine diameter_records_nonneg boxFile 2 5 "um" [boxRec] [] ?_
    boxFile_eval boxRec (by simp)
  intro l hl
  simp only [boxFile, List.mem_singleton] at hl
  subst hl
  intro cls nums hp hlen
  rw [boxToks_parse] at hp
  injection hp with h1
  injection h1 with h2 h3
  subst h3
  norm_num

theorem negToks_parse :
    parse_label_line [some 0, some 0, some 0, some (-(1/2)), some (-(3/10))] =
      some (0, [0, 0, -(1/2), -(3/10)]) := by
  simp [parse_label_line, seqOpts, truncQ]

/-- C7 counterexample: a normalized box line with width −0.5 and height
−0.3 next to a 200×100 image produces a record whose diameter_pixels is
−30 < 0. -/
theorem negative_box_record :
    (okRows (process_label_file negFile 1 1 "um")).map DRecord.diameter_pixels
      = [((-30 : ℚ) : ℝ)] ∧ ((-30 : ℚ) : ℝ) < 0 := by
  have he : estimate_diameter [0, 0, -(1/2), -(3/10)] (some (200, 100)) =
      .ok ((-30 : ℚ) : ℝ) := by
    rw [estimate_diameter_box_some [0, 0, -(1/2), -(3/10)] 200 100 (Or.inl rfl),
      if_pos ⟨⟨by norm_num, by norm_num⟩, by norm_num, by norm_num⟩]
    norm_num [max_def]
  constructor
  · rw [process_label_file]
    simp only [negFile, Option.map_some']
    simp only [processLines, process_line, negToks_parse, he, Except.map]
    norm_num [okRows]
  · norm_num

/-- C5 (amended): a parsed line whose coordinate count is not 4, 5 or 8
produces no diameter row and exactly one unsupported-format diagnostic,
and processing of subsequent lines is unaffected; the class counter,
which never inspects coordinate counts, still counts such a line. -/
theorem unsupported_line_skip (ctx : LineCtx) (i : ℕ)
    (toks : List (Option ℚ)) (cls : ℤ) (nums : List ℚ)
    (hp : parse_label_line toks = some (cls, nums))
    (h4 : ¬(nums.length = 4 ∨ nums.length = 5)) (h8 : nums.length ≠ 8)
    (rest : List RawLine) :
    process_line ctx i (.data toks) = .ok (.diag (.unsupported (i + 1))) ∧
    processLines ctx i (.data toks :: rest) =
      (processLines ctx (i + 1) rest).map
        (fun p => (p.1, .unsupported (i + 1) :: p.2)) ∧
    tally [.data toks] cls = 1 := by
  have h1 : process_line ctx i (.data toks) =
      .ok (.diag (.unsupported (i + 1))) := by
    simp only [process_line, hp, estimate_diameter_other nums ctx.dims h4 h8]
  refine ⟨h1, ?_, ?_⟩
  · rw [processLines, h1]
  · simp [tally, lineClass, hp]

theorem unsupported_line_skip_witness :
    process_line ⟨"", "u", none, 1, 1, "um"⟩ 0
      (.data [some 1, some 0, some 0, some 0, some 0, some 0, some 0]) =
      .ok (.diag (.unsupported 1)) := by
  have hp : parse_label_line
      [some 1, some 0, some 0, some 0, some 0, some 0, some 0] =
      some (1, [0, 0, 0, 0, 0, 0]) := by
    simp [parse_label_line, seqOpts, truncQ]
  exact (unsupported_line_skip _ 0 _ 1 _ hp (by norm_num) (by norm_num) []).1

/-- C5 counterexample: a line with 6 numeric coordinate fields does
increment the per-file and total class counts — the counter has no
coordinate-count check. -/
theorem six_field_line_counted :
    (process_files [⟨"f", [RawLine.data
      [some 1, some 0, some 0, some 0, some 0, some 0, some 0]]⟩]).2 1 = 1 ∧
    ((process_files [⟨"f", [RawLine.data
      [some 1, some 0, some 0, some 0, some 0, some 0, some 0]]⟩]).1 "f").map
        (fun g => g 1) = some 1 := by
  constructor <;> decide

/-! ### Zero-scale behaviour -/

theorem processLines_zero_scale (ctx : LineCtx) (hsp : ctx.sp = 0)
    (lines : List RawLine) :
    ∀ (i : ℕ) (recs : List DRecord) (ds : List Diag),
      processLines ctx i lines = .ok (recs, ds) → recs = [] := by
  induction lines with
  | nil =>
    intro i recs ds h
    simp only [processLines, Except.ok.injEq, Prod.mk.injEq] at h
    exact h.1.symm
  | cons l ls ih =>
    intro i recs ds h
    rw [processLines] at h
    rcases hpl : process_line ctx i l with e | o
    · rw [hpl] at h
      simp at h
    · rw [hpl] at h
      cases o with
      | skip => exact ih (i + 1) recs ds h
      | diag dg =>
        rcases hrest : processLines ctx (i + 1) ls with e2 | p
        · rw [hrest] at h
          simp [Except.map] at h
        · rw [hrest] at h
          simp only [Except.map, Except.ok.injEq, Prod.mk.injEq] at h
          obtain ⟨h1, -⟩ := h
          rw [← h1]
          exact ih (i + 1) p.1 p.2 (by rw [hrest])
      | row r0 =>
        obtain ⟨toks, cls, nums, -, -, -, -, hsp2⟩ :=
          process_line_row_inv ctx i l r0 hpl
        exact absurd hsp hsp2

theorem runAll_zero_scale_rows (files : List LabelFile) (sr : ℚ)
    (u : String) : (runAll files 0 sr u).1 = [] := by
  induction files with
  | nil => rfl
  | cons f fs ih =>
    rcases hpf : process_label_file f 0 sr u with e | ⟨rows, ds⟩
    · rw [runAll, hpf]
      simpa using ih
    · rw [runAll, hpf]
      have hr : rows = [] := by
        rw [process_label_file] at hpf
        exact processLines_zero_scale _ rfl f.lines 0 rows ds hpf
      simp [hr, ih]

theorem sixFile_eval (sp sr : ℚ) (u : String) :
    process_label_file sixFile sp sr u = .ok ([], [.unsupported 1]) := by
  have hp : parse_label_line
      [some 1, some 0, some 0, some 0, some 0, some 0, some 0] =
      some (1, [0, 0, 0, 0, 0, 0]) := by
    simp [parse_label_line, seqOpts, truncQ]
  rw [process_label_file]
  simp only [sixFile, Option.map_none']
  simp only [processLines, process_line, hp,
    estimate_diameter_other [0, 0, 0, 0, 0, 0] none (by norm_num)
      (by norm_num), Except.map]

theorem boxFile_zero_eval (sr : ℚ) (u : String) :
    process_label_file boxFile 0 sr u = .error .zeroDivision := by
  have he : estimate_diameter [0, 0, 150, 80] none = .ok ((150 : ℚ) : ℝ) := by
    rw [estimate_diameter_box_none [0, 0, 150, 80] (Or.inl rfl),
      if_pos (Or.inl (by norm_num))]
    norm_num [max_def]
  rw [process_label_file]
  simp only [boxFile, Option.map_none']
  simp only [processLines, process_line, boxToks_parse, he]
  norm_num

/-- C3 counterexample: with scale_pixels = 0 the run is not stopped at
configuration time and nothing is raised before files are processed: a
run over a file producing no records completes with no error signal at
all. -/
theorem zero_scale_not_config_checked :
    runAll [sixFile] 0 5 "um" = ([], []) := by
  rw [runAll, sixFile_eval 0 5 "um"]
  simp [runAll]

/-- C3 (amended): scale_pixels = 0 is not validated at configuration
time and is not fatal.  With zero scale no row is ever produced; a file
fails with the division-by-zero error exactly while processing the line
that would produce a record, the file loop catches that failure, keeps
going with the remaining files, and the run completes. -/
theorem zero_scale_per_file (files : List LabelFile) (sr : ℚ) (u : String) :
    (runAll files 0 sr u).1 = [] ∧
    (∀ f ∈ files, ∀ recs ds,
      process_label_file f 0 sr u = .ok (recs, ds) → recs = []) ∧
    process_label_file boxFile 0 sr u = .error .zeroDivision ∧
    runAll [boxFile, sixFile] 0 sr u = ([], ["lbl"]) := by
  refine ⟨runAll_zero_scale_rows files sr u, fun f hf recs ds h => ?_,
    boxFile_zero_eval sr u, ?_⟩
  · rw [process_label_file] at h
    exact processLines_zero_scale _ rfl f.lines 0 recs ds h
  · rw [runAll, boxFile_zero_eval sr u, runAll, sixFile_eval 0 sr u]
    simp [runAll, boxFile]

theorem zero_scale_per_file_witness :
    (runAll [boxFile, sixFile] 0 5 "um").1 = [] ∧
    runAll [boxFile, sixFile] 0 5 "um" = ([], ["lbl"]) :=
  ⟨(zero_scale_per_file [boxFile, sixFile] 5 "um").1,
   (zero_scale_per_file [boxFile, sixFile] 5 "um").2.2.2⟩
